import Mathlib

/-!
Verification of `src/JellyTV/build/update_manifest.py`.

The script reads required environment variables, loads a JSON manifest file
(tolerating a missing, empty or syntactically corrupt file), merges a plugin
descriptor and a new version record into the manifest (updating the first
entry with a matching `guid` in place, or appending a fresh entry), and
atomically rewrites the file by writing a sibling temporary file and renaming
it over the target.

This file gives a shallow embedding of the script: JSON values are an
inductive type, Python dicts are insertion-ordered association lists, the
filesystem and the JSON parser are abstracted by the outcome of the read, and
dynamic Python errors (attribute errors on non-dict values, undecodable
bytes) are modelled by `Option`/`Except` results.
-/

namespace JellyTV

/-- JSON values as produced by Python's `json.load`: `None`, booleans,
numbers (the manifests only carry integers in the fields this script touches,
so numbers are modelled as integers), strings, arrays and objects.  A parsed
Python `dict` is modelled as its insertion-ordered list of key/value pairs. -/
inductive JValue where
  | jnull : JValue
  | jbool : Bool → JValue
  | jnum : Int → JValue
  | jstr : String → JValue
  | jarr : List JValue → JValue
  | jobj : List (String × JValue) → JValue

/-- A Python dict holding JSON data: insertion-ordered key/value pairs.
`json.load` and the dict literals in the script never produce duplicate keys;
the operations below read and replace the first occurrence of a key, which
coincides with Python dict behaviour. -/
abbrev Dict := List (String × JValue)

/-- Python `d.get(k)`: the value at `k`, or `None` (here `none`). -/
def dictGet : Dict → String → Option JValue
  | [], _ => none
  | (k', v) :: rest, k => if k' = k then some v else dictGet rest k

/-- Python `d[k] = v`: replace the value at the first occurrence of `k`
keeping its position, or append at the end when `k` is absent
(insertion-order semantics of Python dicts). -/
def dictSet : Dict → String → JValue → Dict
  | [], k, v => [(k, v)]
  | (k', v') :: rest, k, v =>
      if k' = k then (k, v) :: rest else (k', v') :: dictSet rest k v

/-- Python `d.update(p)`: assign each key/value pair of `p`, in order. -/
def dictUpdate (d : Dict) (p : Dict) : Dict :=
  p.foldl (fun acc kv => dictSet acc kv.1 kv.2) d

/-- The thirteen required environment variables, one structure field per
variable, in the order `main` reads them (lines 34–52). -/
structure Inputs where
  name : String
  guid : String
  overview : String
  description : String
  category : String
  owner : String
  imageUrl : String
  version : String
  targetAbi : String
  sourceUrl : String
  checksum : String
  timestamp : String

/-- Lines 36–44: the `plugin` dict literal. -/
def pluginDict (i : Inputs) : Dict :=
  [("name", .jstr i.name),
   ("guid", .jstr i.guid),
   ("overview", .jstr i.overview),
   ("description", .jstr i.description),
   ("category", .jstr i.category),
   ("owner", .jstr i.owner),
   ("imageUrl", .jstr i.imageUrl)]

/-- Lines 46–52: the `version_entry` dict literal (the `DOWNLOAD_URL`
variable is stored under the `sourceUrl` key). -/
def versionDict (i : Inputs) : Dict :=
  [("version", .jstr i.version),
   ("targetAbi", .jstr i.targetAbi),
   ("sourceUrl", .jstr i.sourceUrl),
   ("checksum", .jstr i.checksum),
   ("timestamp", .jstr i.timestamp)]

/-- Line 57, `entry.get("guid") == plugin["guid"]`: the right-hand side is
always a Python `str`, so the comparison holds exactly for an equal JSON
string (`None` or a JSON value of any other type never equals a `str`). -/
def guidMatches (g : String) (d : Dict) : Bool :=
  match dictGet d "guid" with
  | some (.jstr s) => s == g
  | _ => false

/-- Line 62, `v.get("version") != version_entry["version"]` for one record
dict `v`: the right-hand side is a `str`, so the record is discarded exactly
when its `version` field is that very string (a missing field gives `None`,
which never equals a `str`, so such records are kept). -/
def keepRecord (ver : String) (d2 : Dict) : Bool :=
  match dictGet d2 "version" with
  | some (.jstr s) => s != ver
  | _ => true

/-- Lines 59–63: the comprehension filtering the elements of a JSON array.
An element that is not an object makes `v.get` raise `AttributeError`,
modelled as `none`. -/
def filterKeep (ver : String) : List JValue → Option (List JValue)
  | [] => some []
  | .jobj d2 :: rest =>
      match filterKeep ver rest with
      | none => none
      | some r => some (if keepRecord ver d2 then .jobj d2 :: r else r)
  | _ :: _ => none

/-- Lines 59–63 applied to the value of `entry.get("versions", [])`.
Python iterates that value: a JSON array iterates its elements; an empty
string or an empty object iterates nothing, so the comprehension yields the
empty list; any other non-array value either is not iterable (`TypeError`)
or yields non-dict elements on which `v.get` raises (`AttributeError`) —
both modelled as `none`. -/
def iterFilter (ver : String) : JValue → Option (List JValue)
  | .jarr xs => filterKeep ver xs
  | .jstr s => if s = "" then some [] else none
  | .jobj [] => some []
  | _ => none

/-- Lines 58–64, the body of the matched branch: `entry.update(plugin)`
overwrites the descriptor fields, then `versions` is rebuilt as the new
record followed by the surviving old records. -/
def updateEntry (i : Inputs) (d : Dict) : Option Dict :=
  let e := dictUpdate d (pluginDict i)
  let vs := (dictGet e "versions").getD (.jarr [])
  match iterFilter i.version vs with
  | none => none
  | some existing =>
      some (dictSet e "versions" (.jarr (.jobj (versionDict i) :: existing)))

/-- Lines 67–68: `plugin["versions"] = [version_entry]` performed on the
fresh descriptor dict. -/
def newEntry (i : Inputs) : Dict :=
  dictSet (pluginDict i) "versions" (.jarr [.jobj (versionDict i)])

/-- Lines 56–68: the scan over the manifest.  The first entry whose `guid`
equals the submitted guid is updated in place and the loop breaks, so
entries after it are never inspected.  When no entry matches, the new entry
is appended at the end.  A scanned element that is not an object makes
`entry.get` raise `AttributeError`, modelled as `none`. -/
def mergeScan (i : Inputs) : List JValue → Option (List JValue)
  | [] => some [.jobj (newEntry i)]
  | .jobj d :: rest =>
      if guidMatches i.guid d then
        match updateEntry i d with
        | none => none
        | some u => some (.jobj u :: rest)
      else
        match mergeScan i rest with
        | none => none
        | some m => some (.jobj d :: m)
  | _ :: _ => none

/-- Outcome of reading the manifest file, abstracting the filesystem and
the JSON parser used by lines 20–27: the path may be absent, the file may
exist with zero length, its bytes may fail to decode as UTF-8 (then
`json.load` raises `UnicodeDecodeError`), the decoded text may fail to
parse (`json.JSONDecodeError`), or parsing may succeed with a JSON value. -/
inductive FileRead where
  | noFile
  | emptyFile
  | notUtf8
  | badJson
  | parsed (v : JValue)

/-- Line 28, `isinstance(data, list)`. -/
def isArr : JValue → Bool
  | .jarr _ => true
  | _ => false

/-- Lines 20–30, `load_manifest`.  A `none` result models an uncaught
exception: the `except` clause names only `json.JSONDecodeError`, so the
`UnicodeDecodeError` raised by `json.load` on a non-UTF-8 file propagates
out of the function. -/
def load_manifest : FileRead → Option (List JValue)
  | .noFile => some []
  | .emptyFile => some []
  | .notUtf8 => none
  | .badJson => some []
  | .parsed (.jarr xs) => some xs
  | .parsed v => some [v]

/-- Two-space indentation at nesting depth `n`, as produced by
`json.dump(..., indent=2)`. -/
def pad (n : Nat) : String := String.mk (List.replicate (2 * n) ' ')

/-- Four lowercase hex digits, as in the `\uXXXX` escapes of `json.dump`. -/
def hex4 (n : Nat) : String := String.mk (List.leftpad 4 '0' (Nat.toDigits 16 n))

/-- Escaping of one character by `json.dump` with its default
`ensure_ascii=True`: the short escapes, `\uXXXX` for the other control
characters and for every character above `~`, surrogate pairs beyond the
basic multilingual plane. -/
def escChar (c : Char) : String :=
  if c = '"' then "\\\""
  else if c = '\\' then "\\\\"
  else if c = '\x08' then "\\b"
  else if c = '\x0c' then "\\f"
  else if c = '\n' then "\\n"
  else if c = '\x0d' then "\\r"
  else if c = '\t' then "\\t"
  else if c.toNat < 0x20 then "\\u" ++ hex4 c.toNat
  else if c.toNat < 0x7f then String.singleton c
  else if c.toNat < 0x10000 then "\\u" ++ hex4 c.toNat
  else
    "\\u" ++ hex4 (0xd800 + (c.toNat - 0x10000) / 0x400) ++
    "\\u" ++ hex4 (0xdc00 + (c.toNat - 0x10000) % 0x400)

/-- A JSON string literal as emitted by `json.dump`. -/
def pyQuote (s : String) : String :=
  "\"" ++ String.join (s.toList.map escChar) ++ "\""

mutual

/-- Line 73, `json.dump(manifest, fh, indent=2)`: Python's serializer with
two-space indentation; `lvl` is the current nesting depth.  With an indent,
the item separator is a comma followed by a newline and the next indent,
and the key separator is a colon and a space. -/
def dumpVal : Nat → JValue → String
  | _, .jnull => "null"
  | _, .jbool true => "true"
  | _, .jbool false => "false"
  | _, .jnum n => toString n
  | _, .jstr s => pyQuote s
  | _, .jarr [] => "[]"
  | lvl, .jarr (x :: xs) =>
      "[\n" ++ pad (lvl + 1) ++ dumpVal (lvl + 1) x ++
      dumpArrItems (lvl + 1) xs ++ "\n" ++ pad lvl ++ "]"
  | _, .jobj [] => "\x7b\x7d"
  | lvl, .jobj ((k, v) :: kvs) =>
      "\x7b\n" ++ pad (lvl + 1) ++ pyQuote k ++ ": " ++ dumpVal (lvl + 1) v ++
      dumpObjItems (lvl + 1) kvs ++ "\n" ++ pad lvl ++ "\x7d"
termination_by _ v => sizeOf v

/-- Remaining array items, each preceded by the item separator. -/
def dumpArrItems : Nat → List JValue → String
  | _, [] => ""
  | lvl, x :: xs => ",\n" ++ pad lvl ++ dumpVal lvl x ++ dumpArrItems lvl xs
termination_by _ xs => sizeOf xs

/-- Remaining object items, each preceded by the item separator. -/
def dumpObjItems : Nat → List (String × JValue) → String
  | _, [] => ""
  | lvl, (k, v) :: kvs =>
      ",\n" ++ pad lvl ++ pyQuote k ++ ": " ++ dumpVal lvl v ++
      dumpObjItems lvl kvs
termination_by _ kvs => sizeOf kvs

end

/-- Lines 73–74: the file content the script writes, the serialized manifest
followed by the trailing newline. -/
def dumpManifest (m : List JValue) : String := dumpVal 0 (.jarr m) ++ "\n"

/-- A filesystem path reduced to the two components the script uses:
`path.parent` (a directory, kept as a plain string) and `path.name`. -/
structure JPath where
  parent : String
  name : String
deriving DecidableEq

/-- Line 70, the sibling temporary file:
`path.parent / f"{path.name}.tmp"`. -/
def tmpPathOf (p : JPath) : JPath := ⟨p.parent, p.name ++ ".tmp"⟩

/-- Line 34, `Path(env("MANIFEST_PATH"))`, reduced to the two components the
script uses.  Models `pathlib` on normalized paths: the name is the part
after the last slash; the parent is everything before it, `.` when there is
no slash and `/` when the only slash is the leading one. -/
def parsePath (s : String) : JPath :=
  let parts := s.splitOn "/"
  let name := parts.getLastD ""
  let init := parts.dropLast
  if init.isEmpty then ⟨".", name⟩
  else if init = [""] then ⟨"/", name⟩
  else ⟨String.intercalate "/" init, name⟩

/-- The filesystem as the script observes it: file contents by path, plus
the set of existing directories. -/
structure FS where
  files : List (JPath × String)
  dirs : List String

/-- File-content lookup. -/
def fsGet : List (JPath × String) → JPath → Option String
  | [], _ => none
  | (q, c) :: rest, p => if q = p then some c else fsGet rest p

/-- Create or overwrite a file. -/
def fsSet : List (JPath × String) → JPath → String → List (JPath × String)
  | [], p, c => [(p, c)]
  | (q, c') :: rest, p, c =>
      if q = p then (p, c) :: rest else (q, c') :: fsSet rest p c

/-- Remove a file. -/
def fsDel : List (JPath × String) → JPath → List (JPath × String)
  | [], _ => []
  | (q, c) :: rest, p => if q = p then rest else (q, c) :: fsDel rest p

/-- The three filesystem operations of lines 70–75: directory creation with
`parents=True, exist_ok=True`, a file write, and `os.replace`. -/
inductive FSOp where
  | mkdirAll (d : String)
  | write (p : JPath) (content : String)
  | rename (src dst : JPath)

/-- Effect of one operation.  `os.replace` atomically moves the source over
the destination; it would raise `FileNotFoundError` on a missing source, a
case the script never produces because it has just written the source, so
that case is modelled as leaving the filesystem unchanged. -/
def applyOp (fs : FS) : FSOp → FS
  | .mkdirAll d => ⟨fs.files, if d ∈ fs.dirs then fs.dirs else d :: fs.dirs⟩
  | .write p c => ⟨fsSet fs.files p c, fs.dirs⟩
  | .rename src dst =>
      match fsGet fs.files src with
      | some c => ⟨fsSet (fsDel fs.files src) dst c, fs.dirs⟩
      | none => fs

/-- Lines 70–75 as a sequence of primitive filesystem operations: create the
directory of the temporary file (which is the target's directory), write the
serialized content there, rename it over the target. -/
def persistOps (path : JPath) (content : String) : List FSOp :=
  [.mkdirAll (tmpPathOf path).parent,
   .write (tmpPathOf path) content,
   .rename (tmpPathOf path) path]

/-- Lines 70–75: run the write-back against a filesystem. -/
def persist (path : JPath) (m : List JValue) (fs : FS) : FS :=
  (persistOps path (dumpManifest m)).foldl applyOp fs

/-- Every filesystem state along a sequence of operations, the initial
state included. -/
def statesOf (fs : FS) : List FSOp → List FS
  | [] => [fs]
  | op :: ops => fs :: statesOf (applyOp fs op) ops

/-- The process environment. -/
abbrev EnvMap := String → Option String

/-- Lines 12–17, `env(name)`: the value of the variable, or the fatal
configuration error carrying the variable's name. -/
def env (e : EnvMap) (n : String) : Except String String :=
  match e n with
  | some v => .ok v
  | none => .error n

/-- The two ways `main` terminates unsuccessfully: `sys.exit(6)` from a
missing required variable, or an uncaught Python exception. -/
inductive MainErr where
  | missingEnv (n : String)
  | uncaught

/-- Process exit status: 6 from `sys.exit(6)` in `env`, 1 for an uncaught
exception. -/
def MainErr.exitCode : MainErr → Nat
  | .missingEnv _ => 6
  | .uncaught => 1

/-- Line 15: the message printed to stderr for a missing variable.  An
uncaught exception prints an interpreter traceback, not modelled. -/
def MainErr.message : MainErr → Option String
  | .missingEnv n => some ("Environment variable " ++ n ++ " is required")
  | .uncaught => none

/-- The thirteen required variables in the order `main` reads them
(line 34, then lines 37–43, then lines 47–51). -/
def requiredVars : List String :=
  ["MANIFEST_PATH", "NAME", "GUID", "OVERVIEW", "DESCRIPTION", "CATEGORY",
   "OWNER", "IMAGE_URL", "VERSION", "TARGET_ABI", "DOWNLOAD_URL", "CHECKSUM",
   "TIMESTAMP"]

/-- The first required variable that is unset, if any: `env` aborts at the
first missing variable it is asked for. -/
def firstMissing (e : EnvMap) : Option String :=
  requiredVars.find? (fun n => (e n).isNone)

/-- Lines 34–52: collect the manifest path and the twelve field values, in
source order; the first missing variable aborts the run. -/
def collectInputs (e : EnvMap) : Except String (String × Inputs) := do
  let mp ← env e "MANIFEST_PATH"
  let name ← env e "NAME"
  let guid ← env e "GUID"
  let overview ← env e "OVERVIEW"
  let description ← env e "DESCRIPTION"
  let category ← env e "CATEGORY"
  let owner ← env e "OWNER"
  let imageUrl ← env e "IMAGE_URL"
  let version ← env e "VERSION"
  let targetAbi ← env e "TARGET_ABI"
  let sourceUrl ← env e "DOWNLOAD_URL"
  let checksum ← env e "CHECKSUM"
  let timestamp ← env e "TIMESTAMP"
  pure (mp, ⟨name, guid, overview, description, category, owner, imageUrl,
             version, targetAbi, sourceUrl, checksum, timestamp⟩)

/-- Lines 33–75, `main`: collect the inputs (all environment reads happen
before any filesystem access), load the manifest, merge, and only then
persist.  The returned filesystem is unchanged on every error path. -/
def mainRun (e : EnvMap) (r : FileRead) (fs : FS) : FS × Except MainErr Unit :=
  match collectInputs e with
  | .error n => (fs, .error (.missingEnv n))
  | .ok (mp, i) =>
      match load_manifest r with
      | none => (fs, .error .uncaught)
      | some manifest =>
          match mergeScan i manifest with
          | none => (fs, .error .uncaught)
          | some merged => (persist (parsePath mp) merged fs, .ok ())

/-- The record-keeping test of line 62 lifted to a JSON array element, for
stating what the comprehension computes (line 59–63 never reaches a
non-object element without raising, so the value on non-objects is
irrelevant to any statement below). -/
def keepVer (ver : String) : JValue → Bool
  | .jobj d2 => keepRecord ver d2
  | _ => true

/-- The `version` value of a version record when it is a string (the only
shape the script's comparison on line 62 can ever find equal to the
submitted version). -/
def verKey : JValue → Option String
  | .jobj d2 =>
      match dictGet d2 "version" with
      | some (.jstr s) => some s
      | _ => none
  | _ => none

/-- The versions list of an entry as a list of records, empty when the
field is absent or not an array. -/
def versionsList (d : Dict) : List JValue :=
  match dictGet d "versions" with
  | some (.jarr xs) => xs
  | _ => []

/-- No two records of the list carry the same string `version` value. -/
def distinctVerKeys : List JValue → Bool
  | [] => true
  | v :: rest =>
      (match verKey v with
       | none => true
       | some s => rest.all (fun w => verKey w != some s)) && distinctVerKeys rest

/-- The spec's per-entry invariant: within one entry's `versions` list, no
two records share the same `version` value (version values are strings in
the spec's data model).  Non-object manifest elements carry no versions. -/
def entryInvB : JValue → Bool
  | .jobj d => distinctVerKeys (versionsList d)
  | _ => true

/-- The eight keys written by the matched branch: the seven descriptor
fields and `versions`. -/
def writtenKeys : List String :=
  ["name", "guid", "overview", "description", "category", "owner",
   "imageUrl", "versions"]

/-! ### Lemmas about the dict operations -/

theorem dictGet_dictSet_self (d : Dict) (k : String) (v : JValue) :
    dictGet (dictSet d k v) k = some v := by
  induction d with
  | nil => simp [dictSet, dictGet]
  | cons kv rest ih =>
      obtain ⟨k', v'⟩ := kv
      by_cases h : k' = k
      · subst h; simp [dictSet, dictGet]
      · simp [dictSet, dictGet, h, ih]

theorem dictGet_dictSet_ne (d : Dict) (k k' : String) (v : JValue)
    (h : k' ≠ k) : dictGet (dictSet d k v) k' = dictGet d k' := by
  induction d with
  | nil => simp [dictSet, dictGet, if_neg (Ne.symm h)]
  | cons kv rest ih =>
      obtain ⟨k'', v'⟩ := kv
      by_cases hk : k'' = k
      · subst hk
        simp only [dictSet, if_pos rfl, dictGet, if_neg (Ne.symm h)]
      · simp only [dictSet, if_neg hk]
        by_cases hk' : k'' = k'
        · simp only [dictGet, if_pos hk']
        · simp only [dictGet, if_neg hk', ih]

theorem dictSet_eq_of_get (d : Dict) (k : String) (v : JValue)
    (h : dictGet d k = some v) : dictSet d k v = d := by
  induction d with
  | nil => simp [dictGet] at h
  | cons kv rest ih =>
      obtain ⟨k', v'⟩ := kv
      by_cases hk : k' = k
      · subst hk
        rw [dictGet, if_pos rfl] at h
        rw [dictSet, if_pos rfl, Option.some.inj h]
      · rw [dictGet, if_neg hk] at h
        rw [dictSet, if_neg hk, ih h]

theorem dictGet_dictUpdate_not_mem (d p : Dict) (k : String)
    (h : ∀ kv ∈ p, kv.1 ≠ k) :
    dictGet (dictUpdate d p) k = dictGet d k := by
  induction p generalizing d with
  | nil => simp [dictUpdate]
  | cons kv p ih =>
      show dictGet (dictUpdate (dictSet d kv.1 kv.2) p) k = dictGet d k
      rw [ih (dictSet d kv.1 kv.2) (fun kv' h' => h kv' (List.mem_cons_of_mem _ h'))]
      exact dictGet_dictSet_ne d kv.1 k kv.2
        (fun hh => h kv (List.mem_cons_self _ _) hh.symm)

theorem dictUpdate_eq_of_get (d p : Dict)
    (h : ∀ kv ∈ p, dictGet d kv.1 = some kv.2) : dictUpdate d p = d := by
  induction p with
  | nil => rfl
  | cons kv p ih =>
      show dictUpdate (dictSet d kv.1 kv.2) p = d
      rw [dictSet_eq_of_get d kv.1 kv.2 (h kv (List.mem_cons_self _ _))]
      exact ih (fun kv' h' => h kv' (List.mem_cons_of_mem _ h'))

theorem dictGet_dictUpdate_mem (d p : Dict)
    (hnd : (p.map Prod.fst).Nodup) :
    ∀ kv ∈ p, dictGet (dictUpdate d p) kv.1 = some kv.2 := by
  induction p generalizing d with
  | nil => intro kv hkv; simp at hkv
  | cons kv0 p ih =>
      intro kv hkv
      show dictGet (dictUpdate (dictSet d kv0.1 kv0.2) p) kv.1 = some kv.2
      rcases List.mem_cons.mp hkv with rfl | hmem
      · rw [dictGet_dictUpdate_not_mem]
        · exact dictGet_dictSet_self d kv.1 kv.2
        · intro kv' h'
          have : kv.1 ∉ p.map Prod.fst := (List.nodup_cons.mp hnd).1
          exact fun hh => this (hh ▸ List.mem_map_of_mem Prod.fst h')
      · exact ih (dictSet d kv0.1 kv0.2) (List.nodup_cons.mp hnd).2 kv hmem

/-! ### Lemmas about the two literal dicts -/

theorem pluginDict_fst (i : Inputs) : (pluginDict i).map Prod.fst =
    ["name", "guid", "overview", "description", "category", "owner",
     "imageUrl"] := by
  simp [pluginDict]

theorem pluginDict_nodup (i : Inputs) : ((pluginDict i).map Prod.fst).Nodup := by
  rw [pluginDict_fst]; decide

theorem pluginDict_ne_versions (i : Inputs) :
    ∀ kv ∈ pluginDict i, kv.1 ≠ "versions" := by
  intro kv hkv
  simp only [pluginDict, List.mem_cons, List.not_mem_nil, or_false] at hkv
  rcases hkv with rfl | rfl | rfl | rfl | rfl | rfl | rfl <;> simp

theorem guid_mem_pluginDict (i : Inputs) : ("guid", JValue.jstr i.guid) ∈ pluginDict i := by
  simp [pluginDict]

theorem versionDict_version (i : Inputs) :
    dictGet (versionDict i) "version" = some (.jstr i.version) := rfl

theorem keepRecord_versionDict (i : Inputs) :
    keepRecord i.version (versionDict i) = false := by
  simp [keepRecord, versionDict_version]

/-! ### Lemmas about the matched-branch update -/

theorem dictGet_update_versions (i : Inputs) (d : Dict) :
    dictGet (dictUpdate d (pluginDict i)) "versions" = dictGet d "versions" :=
  dictGet_dictUpdate_not_mem d (pluginDict i) "versions" (pluginDict_ne_versions i)

theorem updateEntry_eq (i : Inputs) (d u : Dict) (h : updateEntry i d = some u) :
    ∃ ex, iterFilter i.version ((dictGet d "versions").getD (.jarr [])) = some ex ∧
      u = dictSet (dictUpdate d (pluginDict i)) "versions"
            (.jarr (.jobj (versionDict i) :: ex)) := by
  simp only [updateEntry] at h
  rw [dictGet_update_versions] at h
  cases hf : iterFilter i.version ((dictGet d "versions").getD (.jarr [])) with
  | none => rw [hf] at h; exact absurd h (by simp)
  | some ex => rw [hf] at h; exact ⟨ex, rfl, (Option.some.inj h).symm⟩

theorem updateEntry_of_filter (i : Inputs) (d : Dict) (ex : List JValue)
    (hf : iterFilter i.version ((dictGet d "versions").getD (.jarr [])) = some ex) :
    updateEntry i d = some (dictSet (dictUpdate d (pluginDict i)) "versions"
      (.jarr (.jobj (versionDict i) :: ex))) := by
  simp only [updateEntry]
  rw [dictGet_update_versions, hf]

theorem updateEntry_get_plugin (i : Inputs) (d u : Dict)
    (h : updateEntry i d = some u) :
    ∀ kv ∈ pluginDict i, dictGet u kv.1 = some kv.2 := by
  obtain ⟨ex, hf, rfl⟩ := updateEntry_eq i d u h
  intro kv hkv
  rw [dictGet_dictSet_ne _ _ _ _ (pluginDict_ne_versions i kv hkv)]
  exact dictGet_dictUpdate_mem d (pluginDict i) (pluginDict_nodup i) kv hkv

theorem updateEntry_get_versions (i : Inputs) (d u : Dict)
    (h : updateEntry i d = some u) :
    ∃ ex, iterFilter i.version ((dictGet d "versions").getD (.jarr [])) = some ex ∧
      dictGet u "versions" = some (.jarr (.jobj (versionDict i) :: ex)) := by
  obtain ⟨ex, hf, rfl⟩ := updateEntry_eq i d u h
  exact ⟨ex, hf, dictGet_dictSet_self _ _ _⟩

theorem updateEntry_guidMatches (i : Inputs) (d u : Dict)
    (h : updateEntry i d = some u) : guidMatches i.guid u = true := by
  have hg := updateEntry_get_plugin i d u h ("guid", .jstr i.guid) (guid_mem_pluginDict i)
  simp [guidMatches, hg]

/-! ### Lemmas about the version filter -/

theorem filterKeep_eq_filter (ver : String) (vs ex : List JValue)
    (h : filterKeep ver vs = some ex) : ex = vs.filter (keepVer ver) := by
  induction vs generalizing ex with
  | nil =>
      simp only [filterKeep, Option.some.injEq] at h
      simp [← h]
  | cons v vs ih =>
      cases v with
      | jobj d2 =>
          simp only [filterKeep] at h
          cases hrec : filterKeep ver vs with
          | none => rw [hrec] at h; exact absurd h (by simp)
          | some r =>
              rw [hrec] at h
              obtain rfl := Option.some.inj h
              by_cases hk : keepRecord ver d2 <;>
                simp [List.filter_cons, keepVer, hk, ih r hrec]
      | jnull => simp [filterKeep] at h
      | jbool b => simp [filterKeep] at h
      | jnum n => simp [filterKeep] at h
      | jstr s => simp [filterKeep] at h
      | jarr xs => simp [filterKeep] at h

theorem filterKeep_mem (ver : String) (vs ex : List JValue)
    (h : filterKeep ver vs = some ex) :
    ∀ v ∈ ex, ∃ d2, v = JValue.jobj d2 ∧ keepRecord ver d2 = true := by
  induction vs generalizing ex with
  | nil =>
      simp only [filterKeep, Option.some.injEq] at h
      intro v hv; rw [← h] at hv; simp at hv
  | cons v vs ih =>
      cases v with
      | jobj d2 =>
          simp only [filterKeep] at h
          cases hrec : filterKeep ver vs with
          | none => rw [hrec] at h; exact absurd h (by simp)
          | some r =>
              rw [hrec] at h
              obtain rfl := Option.some.inj h
              intro w hw
              by_cases hk : keepRecord ver d2
              · rw [if_pos hk] at hw
                rcases List.mem_cons.mp hw with rfl | hmem
                · exact ⟨d2, rfl, hk⟩
                · exact ih r hrec w hmem
              · rw [if_neg hk] at hw
                exact ih r hrec w hw
      | jnull => simp [filterKeep] at h
      | jbool b => simp [filterKeep] at h
      | jnum n => simp [filterKeep] at h
      | jstr s => simp [filterKeep] at h
      | jarr xs => simp [filterKeep] at h

theorem filterKeep_of_all (ver : String) (ex : List JValue)
    (h : ∀ v ∈ ex, ∃ d2, v = JValue.jobj d2 ∧ keepRecord ver d2 = true) :
    filterKeep ver ex = some ex := by
  induction ex with
  | nil => rfl
  | cons v rest ih =>
      obtain ⟨d2, rfl, hk⟩ := h v (List.mem_cons_self _ _)
      simp only [filterKeep, ih (fun w hw => h w (List.mem_cons_of_mem _ hw)), hk,
        if_true]

theorem filterKeep_sublist (ver : String) (vs ex : List JValue)
    (h : filterKeep ver vs = some ex) : ex.Sublist vs := by
  rw [filterKeep_eq_filter ver vs ex h]
  exact List.filter_sublist vs

theorem iterFilter_mem (ver : String) (x : JValue) (ex : List JValue)
    (h : iterFilter ver x = some ex) :
    ∀ v ∈ ex, ∃ d2, v = JValue.jobj d2 ∧ keepRecord ver d2 = true := by
  cases x with
  | jarr xs => exact filterKeep_mem ver xs ex h
  | jstr s =>
      simp only [iterFilter] at h
      by_cases hs : s = ""
      · rw [if_pos hs] at h
        obtain rfl := Option.some.inj h
        intro v hv; simp at hv
      · rw [if_neg hs] at h; exact absurd h (by simp)
  | jobj kvs =>
      cases kvs with
      | nil =>
          simp only [iterFilter, Option.some.injEq] at h
          intro v hv; rw [← h] at hv; simp at hv
      | cons kv rest => simp [iterFilter] at h
  | jnull => simp [iterFilter] at h
  | jbool b => simp [iterFilter] at h
  | jnum n => simp [iterFilter] at h

/-! ### Fixed points of the update: idempotence ingredients -/

theorem dictGet_of_mem_nodup (p : Dict) (hnd : (p.map Prod.fst).Nodup) :
    ∀ kv ∈ p, dictGet p kv.1 = some kv.2 := by
  induction p with
  | nil => intro kv hkv; simp at hkv
  | cons kv0 p ih =>
      obtain ⟨k0, v0⟩ := kv0
      intro kv hkv
      rcases List.mem_cons.mp hkv with rfl | hmem
      · simp [dictGet]
      · have hne : k0 ≠ kv.1 := by
          intro hh
          apply (List.nodup_cons.mp hnd).1
          rw [hh]
          exact List.mem_map.mpr ⟨kv, hmem, rfl⟩
        rw [dictGet, if_neg hne]
        exact ih (List.nodup_cons.mp hnd).2 kv hmem

theorem newEntry_get_plugin (i : Inputs) :
    ∀ kv ∈ pluginDict i, dictGet (newEntry i) kv.1 = some kv.2 := by
  intro kv hkv
  rw [newEntry, dictGet_dictSet_ne _ _ _ _ (pluginDict_ne_versions i kv hkv)]
  exact dictGet_of_mem_nodup (pluginDict i) (pluginDict_nodup i) kv hkv

theorem newEntry_versions (i : Inputs) :
    dictGet (newEntry i) "versions" = some (.jarr [.jobj (versionDict i)]) := by
  rw [newEntry]; exact dictGet_dictSet_self _ _ _

theorem newEntry_guidMatches (i : Inputs) :
    guidMatches i.guid (newEntry i) = true := by
  have hg := newEntry_get_plugin i ("guid", .jstr i.guid) (guid_mem_pluginDict i)
  simp [guidMatches, hg]

theorem newEntry_fix (i : Inputs) : updateEntry i (newEntry i) = some (newEntry i) := by
  have h2 := newEntry_versions i
  have h3 : filterKeep i.version [.jobj (versionDict i)] = some [] := by
    simp [filterKeep, keepRecord_versionDict i]
  have h4 : iterFilter i.version
      ((dictGet (newEntry i) "versions").getD (.jarr [])) = some [] := by
    rw [h2]; simpa [iterFilter] using h3
  have h1 : dictUpdate (newEntry i) (pluginDict i) = newEntry i :=
    dictUpdate_eq_of_get _ _ (newEntry_get_plugin i)
  rw [updateEntry_of_filter i (newEntry i) [] h4, h1, dictSet_eq_of_get _ _ _ h2]

theorem updateEntry_idem (i : Inputs) (d u : Dict) (h : updateEntry i d = some u) :
    updateEntry i u = some u := by
  obtain ⟨ex, hf, hue⟩ := updateEntry_eq i d u h
  have hmem := iterFilter_mem i.version _ ex hf
  have h2 : dictGet u "versions" = some (.jarr (.jobj (versionDict i) :: ex)) := by
    rw [hue]; exact dictGet_dictSet_self _ _ _
  have h1 : dictUpdate u (pluginDict i) = u := by
    apply dictUpdate_eq_of_get
    intro kv hkv
    rw [hue, dictGet_dictSet_ne _ _ _ _ (pluginDict_ne_versions i kv hkv)]
    exact dictGet_dictUpdate_mem d (pluginDict i) (pluginDict_nodup i) kv hkv
  have h3 : filterKeep i.version (.jobj (versionDict i) :: ex) = some ex := by
    simp only [filterKeep, filterKeep_of_all i.version ex hmem,
      keepRecord_versionDict i]
    simp
  have h4 : iterFilter i.version ((dictGet u "versions").getD (.jarr [])) = some ex := by
    rw [h2]; simpa [iterFilter] using h3
  rw [updateEntry_of_filter i u ex h4, h1, dictSet_eq_of_get _ _ _ h2]

/-! ### Lemmas about the manifest scan -/

theorem mergeScan_found (i : Inputs) (pre post : List JValue) (dm u : Dict)
    (hpre : ∀ e ∈ pre, ∃ d, e = JValue.jobj d ∧ guidMatches i.guid d = false)
    (hm : guidMatches i.guid dm = true) (hu : updateEntry i dm = some u) :
    mergeScan i (pre ++ JValue.jobj dm :: post) =
      some (pre ++ JValue.jobj u :: post) := by
  induction pre with
  | nil => simp [mergeScan, hm, hu]
  | cons e pre ih =>
      obtain ⟨d, rfl, hg⟩ := hpre e (List.mem_cons_self _ _)
      have ihh := ih (fun e he => hpre e (List.mem_cons_of_mem _ he))
      simp [mergeScan, hg, ihh]

theorem mergeScan_notfound (i : Inputs) (m : List JValue)
    (h : ∀ e ∈ m, ∃ d, e = JValue.jobj d ∧ guidMatches i.guid d = false) :
    mergeScan i m = some (m ++ [JValue.jobj (newEntry i)]) := by
  induction m with
  | nil => simp [mergeScan]
  | cons e m ih =>
      obtain ⟨d, rfl, hg⟩ := h e (List.mem_cons_self _ _)
      simp [mergeScan, hg, ih (fun e he => h e (List.mem_cons_of_mem _ he))]

theorem mergeScan_idem (i : Inputs) (m m' : List JValue)
    (h : mergeScan i m = some m') : mergeScan i m' = some m' := by
  induction m generalizing m' with
  | nil =>
      simp only [mergeScan, Option.some.injEq] at h
      subst h
      simp [mergeScan, newEntry_guidMatches i, newEntry_fix i]
  | cons e rest ih =>
      cases e with
      | jobj d =>
          cases hg : guidMatches i.guid d with
          | true =>
              simp only [mergeScan, hg, if_true] at h
              cases hu : updateEntry i d with
              | none => rw [hu] at h; exact absurd h (by simp)
              | some u =>
                  rw [hu] at h
                  obtain rfl := Option.some.inj h
                  simp [mergeScan, updateEntry_guidMatches i d u hu,
                    updateEntry_idem i d u hu]
          | false =>
              simp only [mergeScan, hg, Bool.false_eq_true, if_false] at h
              cases hmr : mergeScan i rest with
              | none => rw [hmr] at h; exact absurd h (by simp)
              | some m2 =>
                  rw [hmr] at h
                  obtain rfl := Option.some.inj h
                  simp [mergeScan, hg, ih m2 hmr]
      | jnull => simp [mergeScan] at h
      | jbool b => simp [mergeScan] at h
      | jnum n => simp [mergeScan] at h
      | jstr s => simp [mergeScan] at h
      | jarr xs => simp [mergeScan] at h

/-! ### Lemmas about the distinct-versions invariant -/

theorem verKey_versionDict (i : Inputs) :
    verKey (.jobj (versionDict i)) = some i.version := by
  simp [verKey, versionDict_version]

theorem verKey_of_keep (ver : String) (d2 : Dict) (h : keepRecord ver d2 = true) :
    verKey (.jobj d2) ≠ some ver := by
  simp only [keepRecord] at h
  simp only [verKey]
  cases hdv : dictGet d2 "version" with
  | none => simp
  | some w =>
      rw [hdv] at h
      cases w with
      | jstr s =>
          simp only [bne_iff_ne, ne_eq] at h
          simp [h]
      | jnull => simp
      | jbool b => simp
      | jnum n => simp
      | jarr xs => simp
      | jobj kvs => simp

theorem distinctVerKeys_sublist (l1 l2 : List JValue) (hs : l1.Sublist l2)
    (h : distinctVerKeys l2 = true) : distinctVerKeys l1 = true := by
  induction hs with
  | slnil => rfl
  | cons v hs ih =>
      apply ih
      simp only [distinctVerKeys, Bool.and_eq_true] at h
      exact h.2
  | cons₂ v hs ih =>
      simp only [distinctVerKeys, Bool.and_eq_true] at h ⊢
      refine ⟨?_, ih h.2⟩
      cases hv : verKey v with
      | none => simp
      | some s =>
          rw [hv] at h
          have h1 := h.1
          rw [List.all_eq_true] at h1 ⊢
          intro w hw
          exact h1 w (hs.subset hw)

theorem iterFilter_cases (ver : String) (x : JValue) (ex : List JValue)
    (h : iterFilter ver x = some ex) :
    ex = [] ∨ ∃ xs, x = JValue.jarr xs ∧ filterKeep ver xs = some ex := by
  cases x with
  | jarr xs => exact Or.inr ⟨xs, rfl, h⟩
  | jstr s =>
      simp only [iterFilter] at h
      by_cases hs : s = ""
      · rw [if_pos hs] at h; exact Or.inl (Option.some.inj h).symm
      · rw [if_neg hs] at h; exact absurd h (by simp)
  | jobj kvs =>
      cases kvs with
      | nil => exact Or.inl (Option.some.inj h).symm
      | cons kv rest => simp [iterFilter] at h
  | jnull => simp [iterFilter] at h
  | jbool b => simp [iterFilter] at h
  | jnum n => simp [iterFilter] at h

theorem entryInvB_update (i : Inputs) (d u : Dict)
    (h : updateEntry i d = some u) (hinv : entryInvB (.jobj d) = true) :
    entryInvB (.jobj u) = true := by
  obtain ⟨ex, hf, rfl⟩ := updateEntry_eq i d u h
  have hmem := iterFilter_mem i.version _ ex hf
  have hv : versionsList (dictSet (dictUpdate d (pluginDict i)) "versions"
      (.jarr (.jobj (versionDict i) :: ex))) = .jobj (versionDict i) :: ex := by
    simp [versionsList, dictGet_dictSet_self]
  have hex : distinctVerKeys ex = true := by
    cases hdv : dictGet d "versions" with
    | none =>
        rw [hdv] at hf
        have : filterKeep i.version [] = some ex := hf
        simp only [filterKeep, Option.some.injEq] at this
        rw [← this]
        rfl
    | some w =>
        rw [hdv] at hf
        rcases iterFilter_cases i.version w ex hf with rfl | ⟨xs, rfl, hfk⟩
        · rfl
        · have hinv2 : distinctVerKeys xs = true := by
            simpa [entryInvB, versionsList, hdv] using hinv
          exact distinctVerKeys_sublist ex xs (filterKeep_sublist _ _ _ hfk) hinv2
  simp only [entryInvB, hv, distinctVerKeys, verKey_versionDict i,
    Bool.and_eq_true]
  refine ⟨?_, hex⟩
  rw [List.all_eq_true]
  intro w hw
  obtain ⟨d2, rfl, hk⟩ := hmem w hw
  simp [bne_iff_ne, verKey_of_keep i.version d2 hk]

theorem newEntry_inv (i : Inputs) : entryInvB (.jobj (newEntry i)) = true := by
  simp [entryInvB, versionsList, newEntry_versions i, distinctVerKeys,
    verKey_versionDict i]

theorem mergeScan_inv (i : Inputs) (m m' : List JValue)
    (hinv : ∀ e ∈ m, entryInvB e = true) (h : mergeScan i m = some m') :
    ∀ e ∈ m', entryInvB e = true := by
  induction m generalizing m' with
  | nil =>
      simp only [mergeScan, Option.some.injEq] at h
      subst h
      intro e he
      simp only [List.mem_singleton] at he
      subst he
      exact newEntry_inv i
  | cons e0 rest ih =>
      cases e0 with
      | jobj d =>
          cases hg : guidMatches i.guid d with
          | true =>
              simp only [mergeScan, hg, if_true] at h
              cases hu : updateEntry i d with
              | none => rw [hu] at h; exact absurd h (by simp)
              | some u =>
                  rw [hu] at h
                  obtain rfl := Option.some.inj h
                  intro e he
                  rcases List.mem_cons.mp he with rfl | hmem
                  · exact entryInvB_update i d u hu
                      (hinv _ (List.mem_cons_self _ _))
                  · exact hinv e (List.mem_cons_of_mem _ hmem)
          | false =>
              simp only [mergeScan, hg, Bool.false_eq_true, if_false] at h
              cases hmr : mergeScan i rest with
              | none => rw [hmr] at h; exact absurd h (by simp)
              | some m2 =>
                  rw [hmr] at h
                  obtain rfl := Option.some.inj h
                  intro e he
                  rcases List.mem_cons.mp he with rfl | hmem
                  · exact hinv _ (List.mem_cons_self _ _)
                  · exact ih m2
                      (fun e' he' => hinv e' (List.mem_cons_of_mem _ he')) hmr e hmem
      | jnull => simp [mergeScan] at h
      | jbool b => simp [mergeScan] at h
      | jnum n => simp [mergeScan] at h
      | jstr s => simp [mergeScan] at h
      | jarr xs => simp [mergeScan] at h

theorem updateEntry_count_one (i : Inputs) (d u : Dict)
    (h : updateEntry i d = some u) :
    (versionsList u).countP (fun v => verKey v == some i.version) = 1 := by
  obtain ⟨ex, hf, rfl⟩ := updateEntry_eq i d u h
  have hmem := iterFilter_mem i.version _ ex hf
  have hv : versionsList (dictSet (dictUpdate d (pluginDict i)) "versions"
      (.jarr (.jobj (versionDict i) :: ex))) = .jobj (versionDict i) :: ex := by
    simp [versionsList, dictGet_dictSet_self]
  rw [hv, List.countP_cons_of_pos]
  · rw [Nat.add_left_eq_self]
    apply List.countP_eq_zero.mpr
    intro w hw
    obtain ⟨d2, rfl, hk⟩ := hmem w hw
    simp [verKey_of_keep i.version d2 hk]
  · simp [verKey_versionDict i]

/-! ### Lemmas about the filesystem model -/

theorem fsGet_fsSet_self (l : List (JPath × String)) (p : JPath) (c : String) :
    fsGet (fsSet l p c) p = some c := by
  induction l with
  | nil => simp [fsSet, fsGet]
  | cons qc rest ih =>
      obtain ⟨q, c'⟩ := qc
      by_cases h : q = p
      · subst h; simp [fsSet, fsGet]
      · simp [fsSet, fsGet, h, ih]

theorem fsGet_fsSet_ne (l : List (JPath × String)) (p p' : JPath) (c : String)
    (h : p' ≠ p) : fsGet (fsSet l p c) p' = fsGet l p' := by
  induction l with
  | nil => simp [fsSet, fsGet, if_neg (Ne.symm h)]
  | cons qc rest ih =>
      obtain ⟨q, c'⟩ := qc
      by_cases hq : q = p
      · subst hq
        simp only [fsSet, if_pos rfl, fsGet, if_neg (Ne.symm h)]
      · simp only [fsSet, if_neg hq]
        by_cases hq' : q = p'
        · simp only [fsGet, if_pos hq']
        · simp only [fsGet, if_neg hq', ih]

theorem tmpPathOf_ne (p : JPath) : tmpPathOf p ≠ p := by
  intro h
  have hn : p.name ++ ".tmp" = p.name := congrArg JPath.name h
  have hl := congrArg String.length hn
  rw [String.length_append, show (".tmp").length = 4 from rfl] at hl
  omega

theorem filterKeep_retains (ver : String) (xs ex : List JValue)
    (h : filterKeep ver xs = some ex) (d2 : Dict)
    (hmem : JValue.jobj d2 ∈ xs) (hnone : dictGet d2 "version" = none) :
    JValue.jobj d2 ∈ ex := by
  induction xs generalizing ex with
  | nil => simp at hmem
  | cons v vs ih =>
      cases v with
      | jobj d3 =>
          simp only [filterKeep] at h
          cases hrec : filterKeep ver vs with
          | none => rw [hrec] at h; exact absurd h (by simp)
          | some r =>
              rw [hrec] at h
              obtain rfl := Option.some.inj h
              rcases List.mem_cons.mp hmem with heq | hmem2
              · have heq2 : d2 = d3 := by injection heq
                subst heq2
                have hk : keepRecord ver d2 = true := by
                  simp [keepRecord, hnone]
                rw [if_pos hk]
                exact List.mem_cons_self _ _
              · have hr := ih r hrec hmem2
                by_cases hk : keepRecord ver d3
                · rw [if_pos hk]; exact List.mem_cons_of_mem _ hr
                · rw [if_neg hk]; exact hr
      | jnull => simp [filterKeep] at h
      | jbool b => simp [filterKeep] at h
      | jnum n => simp [filterKeep] at h
      | jstr s => simp [filterKeep] at h
      | jarr ys => simp [filterKeep] at h

/-! ### The claims -/

/-- C1: for every loaded manifest containing at least one entry whose `guid`
equals the submitted guid, the merge rewrites exactly the first such entry:
the scan result keeps every entry before it (all non-matching) and after it
verbatim and in place, the updated entry carries the seven submitted
descriptor values, and the descriptor overwrite itself (the
`entry.update(plugin)` step) leaves the entry's `versions` field untouched. -/
theorem guid_match_updates_first_entry (i : Inputs) (pre post : List JValue)
    (dm u : Dict)
    (hpre : ∀ e ∈ pre, ∃ d, e = JValue.jobj d ∧ guidMatches i.guid d = false)
    (hm : guidMatches i.guid dm = true)
    (hu : updateEntry i dm = some u) :
    mergeScan i (pre ++ JValue.jobj dm :: post) =
        some (pre ++ JValue.jobj u :: post)
    ∧ (∀ kv ∈ pluginDict i, dictGet u kv.1 = some kv.2)
    ∧ dictGet (dictUpdate dm (pluginDict i)) "versions" = dictGet dm "versions" :=
  ⟨mergeScan_found i pre post dm u hpre hm hu,
   updateEntry_get_plugin i dm u hu,
   dictGet_update_versions i dm⟩

/-- Witness for C1 at a concrete manifest `[A, B]` where only `B` matches. -/
theorem guid_match_updates_first_entry_witness :
    (∀ e ∈ [JValue.jobj [("guid", JValue.jstr "x")]],
        ∃ d, e = JValue.jobj d ∧ guidMatches "g" d = false)
    ∧ guidMatches "g" [("guid", JValue.jstr "g")] = true
    ∧ updateEntry ⟨"n", "g", "o", "d", "c", "w", "u", "1", "a", "s", "k", "t"⟩
        [("guid", JValue.jstr "g")] =
        some [("guid", JValue.jstr "g"), ("name", JValue.jstr "n"),
          ("overview", JValue.jstr "o"), ("description", JValue.jstr "d"),
          ("category", JValue.jstr "c"), ("owner", JValue.jstr "w"),
          ("imageUrl", JValue.jstr "u"),
          ("versions", JValue.jarr [JValue.jobj [("version", JValue.jstr "1"),
            ("targetAbi", JValue.jstr "a"), ("sourceUrl", JValue.jstr "s"),
            ("checksum", JValue.jstr "k"), ("timestamp", JValue.jstr "t")]])]
    ∧ mergeScan ⟨"n", "g", "o", "d", "c", "w", "u", "1", "a", "s", "k", "t"⟩
        ([JValue.jobj [("guid", JValue.jstr "x")]] ++
          JValue.jobj [("guid", JValue.jstr "g")] :: [JValue.jstr "junk"]) =
        some ([JValue.jobj [("guid", JValue.jstr "x")]] ++
          JValue.jobj [("guid", JValue.jstr "g"), ("name", JValue.jstr "n"),
            ("overview", JValue.jstr "o"), ("description", JValue.jstr "d"),
            ("category", JValue.jstr "c"), ("owner", JValue.jstr "w"),
            ("imageUrl", JValue.jstr "u"),
            ("versions", JValue.jarr [JValue.jobj [("version", JValue.jstr "1"),
              ("targetAbi", JValue.jstr "a"), ("sourceUrl", JValue.jstr "s"),
              ("checksum", JValue.jstr "k"), ("timestamp", JValue.jstr "t")]])] ::
          [JValue.jstr "junk"]) := by
  refine ⟨?_, rfl, rfl, ?_⟩
  · intro e he
    simp only [List.mem_singleton] at he
    subst he
    exact ⟨_, rfl, rfl⟩
  · exact (guid_match_updates_first_entry
      ⟨"n", "g", "o", "d", "c", "w", "u", "1", "a", "s", "k", "t"⟩
      [JValue.jobj [("guid", JValue.jstr "x")]] [JValue.jstr "junk"]
      [("guid", JValue.jstr "g")] _
      (by intro e he
          simp only [List.mem_singleton] at he
          subst he
          exact ⟨_, rfl, rfl⟩)
      rfl rfl).1

/-- C2: for every matched entry whose `versions` field holds an array, the
resulting `versions` value is the new version record prepended to the prior
array filtered to drop exactly the records whose `version` equals the
submitted version. -/
theorem version_replacement_filters_and_prepends (i : Inputs) (d u : Dict)
    (vs : List JValue)
    (hv : dictGet d "versions" = some (.jarr vs))
    (hu : updateEntry i d = some u) :
    dictGet u "versions" =
      some (.jarr (.jobj (versionDict i) :: vs.filter (keepVer i.version))) := by
  obtain ⟨ex, hf, hvv⟩ := updateEntry_get_versions i d u hu
  rw [hv] at hf
  have hex : ex = vs.filter (keepVer i.version) :=
    filterKeep_eq_filter i.version vs ex (by simpa [iterFilter] using hf)
  rw [hvv, hex]

/-- Witness for C2 at the spec's example: prior versions `[v2, v1]` and a
resubmission of `v1` with different field values yields `[v1(new), v2]`
with `v2` retained unchanged. -/
theorem version_replacement_filters_and_prepends_witness :
    dictGet [("guid", JValue.jstr "g"),
        ("versions", JValue.jarr [JValue.jobj [("version", JValue.jstr "2")],
          JValue.jobj [("version", JValue.jstr "1"),
            ("sourceUrl", JValue.jstr "old")]])] "versions" =
      some (.jarr [JValue.jobj [("version", JValue.jstr "2")],
        JValue.jobj [("version", JValue.jstr "1"), ("sourceUrl", JValue.jstr "old")]])
    ∧ updateEntry ⟨"n", "g", "o", "d", "c", "w", "u", "1", "a", "s", "k", "t"⟩
        [("guid", JValue.jstr "g"),
         ("versions", JValue.jarr [JValue.jobj [("version", JValue.jstr "2")],
           JValue.jobj [("version", JValue.jstr "1"),
             ("sourceUrl", JValue.jstr "old")]])] =
        some [("guid", JValue.jstr "g"),
          ("versions", JValue.jarr [JValue.jobj [("version", JValue.jstr "1"),
             ("targetAbi", JValue.jstr "a"), ("sourceUrl", JValue.jstr "s"),
             ("checksum", JValue.jstr "k"), ("timestamp", JValue.jstr "t")],
            JValue.jobj [("version", JValue.jstr "2")]]),
          ("name", JValue.jstr "n"), ("overview", JValue.jstr "o"),
          ("description", JValue.jstr "d"), ("category", JValue.jstr "c"),
          ("owner", JValue.jstr "w"), ("imageUrl", JValue.jstr "u")]
    ∧ dictGet [("guid", JValue.jstr "g"),
          ("versions", JValue.jarr [JValue.jobj [("version", JValue.jstr "1"),
             ("targetAbi", JValue.jstr "a"), ("sourceUrl", JValue.jstr "s"),
             ("checksum", JValue.jstr "k"), ("timestamp", JValue.jstr "t")],
            JValue.jobj [("version", JValue.jstr "2")]]),
          ("name", JValue.jstr "n"), ("overview", JValue.jstr "o"),
          ("description", JValue.jstr "d"), ("category", JValue.jstr "c"),
          ("owner", JValue.jstr "w"), ("imageUrl", JValue.jstr "u")] "versions" =
        some (.jarr (.jobj (versionDict
            ⟨"n", "g", "o", "d", "c", "w", "u", "1", "a", "s", "k", "t"⟩) ::
          [JValue.jobj [("version", JValue.jstr "2")],
           JValue.jobj [("version", JValue.jstr "1"),
             ("sourceUrl", JValue.jstr "old")]].filter (keepVer "1"))) := by
  refine ⟨rfl, rfl, ?_⟩
  exact version_replacement_filters_and_prepends
    ⟨"n", "g", "o", "d", "c", "w", "u", "1", "a", "s", "k", "t"⟩
    [("guid", JValue.jstr "g"),
     ("versions", JValue.jarr [JValue.jobj [("version", JValue.jstr "2")],
       JValue.jobj [("version", JValue.jstr "1"),
         ("sourceUrl", JValue.jstr "old")]])]
    [("guid", JValue.jstr "g"),
     ("versions", JValue.jarr [JValue.jobj [("version", JValue.jstr "1"),
        ("targetAbi", JValue.jstr "a"), ("sourceUrl", JValue.jstr "s"),
        ("checksum", JValue.jstr "k"), ("timestamp", JValue.jstr "t")],
       JValue.jobj [("version", JValue.jstr "2")]]),
     ("name", JValue.jstr "n"), ("overview", JValue.jstr "o"),
     ("description", JValue.jstr "d"), ("category", JValue.jstr "c"),
     ("owner", JValue.jstr "w"), ("imageUrl", JValue.jstr "u")]
    [JValue.jobj [("version", JValue.jstr "2")],
     JValue.jobj [("version", JValue.jstr "1"), ("sourceUrl", JValue.jstr "old")]]
    rfl rfl

/-- C3: for every loaded manifest with no matching entry (all entries are
objects whose `guid` does not equal the submitted guid, including the empty
manifest), the merge appends exactly one new entry at the end, made of the
seven submitted descriptor fields plus a `versions` list holding only the
new version record; every pre-existing entry is returned verbatim. -/
theorem no_match_appends_new_entry (i : Inputs) (m : List JValue)
    (h : ∀ e ∈ m, ∃ d, e = JValue.jobj d ∧ guidMatches i.guid d = false) :
    mergeScan i m = some (m ++ [JValue.jobj (newEntry i)])
    ∧ (∀ kv ∈ pluginDict i, dictGet (newEntry i) kv.1 = some kv.2)
    ∧ dictGet (newEntry i) "versions" = some (.jarr [.jobj (versionDict i)]) :=
  ⟨mergeScan_notfound i m h, newEntry_get_plugin i, newEntry_versions i⟩

/-- Witness for C3 at a one-entry non-matching manifest. -/
theorem no_match_appends_new_entry_witness :
    (∀ e ∈ [JValue.jobj [("guid", JValue.jstr "x")]],
        ∃ d, e = JValue.jobj d ∧ guidMatches "g" d = false)
    ∧ mergeScan ⟨"n", "g", "o", "d", "c", "w", "u", "1", "a", "s", "k", "t"⟩
        [JValue.jobj [("guid", JValue.jstr "x")]] =
      some ([JValue.jobj [("guid", JValue.jstr "x")]] ++
        [JValue.jobj (newEntry
          ⟨"n", "g", "o", "d", "c", "w", "u", "1", "a", "s", "k", "t"⟩)]) := by
  have hpre : ∀ e ∈ [JValue.jobj [("guid", JValue.jstr "x")]],
      ∃ d, e = JValue.jobj d ∧ guidMatches "g" d = false := by
    intro e he
    simp only [List.mem_singleton] at he
    subst he
    exact ⟨_, rfl, rfl⟩
  exact ⟨hpre, (no_match_appends_new_entry
    ⟨"n", "g", "o", "d", "c", "w", "u", "1", "a", "s", "k", "t"⟩
    [JValue.jobj [("guid", JValue.jstr "x")]] hpre).1⟩

/-- C9: the matched-entry update only writes the seven descriptor keys and
`versions`; every other key of the entry keeps its value (the lookup result
under any other key is unchanged). -/
theorem descriptor_update_preserves_other_keys (i : Inputs) (d u : Dict)
    (k : String) (hu : updateEntry i d = some u) (hk : k ∉ writtenKeys) :
    dictGet u k = dictGet d k := by
  obtain ⟨ex, hf, rfl⟩ := updateEntry_eq i d u hu
  have hkv : k ≠ "versions" := by
    intro hh
    exact hk (by rw [hh]; decide)
  rw [dictGet_dictSet_ne _ _ _ _ hkv]
  apply dictGet_dictUpdate_not_mem
  intro kv hkvm hh
  apply hk
  rw [← hh]
  simp only [pluginDict, List.mem_cons, List.not_mem_nil, or_false] at hkvm
  rcases hkvm with rfl | rfl | rfl | rfl | rfl | rfl | rfl <;> simp [writtenKeys]

/-- Witness for C9: an `extra` key of the matched entry survives the merge
with its value. -/
theorem descriptor_update_preserves_other_keys_witness :
    updateEntry ⟨"n", "g", "o", "d", "c", "w", "u", "1", "a", "s", "k", "t"⟩
        [("guid", JValue.jstr "g"), ("extra", JValue.jnum 7)] =
      some [("guid", JValue.jstr "g"), ("extra", JValue.jnum 7),
        ("name", JValue.jstr "n"), ("overview", JValue.jstr "o"),
        ("description", JValue.jstr "d"), ("category", JValue.jstr "c"),
        ("owner", JValue.jstr "w"), ("imageUrl", JValue.jstr "u"),
        ("versions", JValue.jarr [JValue.jobj [("version", JValue.jstr "1"),
          ("targetAbi", JValue.jstr "a"), ("sourceUrl", JValue.jstr "s"),
          ("checksum", JValue.jstr "k"), ("timestamp", JValue.jstr "t")]])]
    ∧ "extra" ∉ writtenKeys
    ∧ dictGet [("guid", JValue.jstr "g"), ("extra", JValue.jnum 7),
        ("name", JValue.jstr "n"), ("overview", JValue.jstr "o"),
        ("description", JValue.jstr "d"), ("category", JValue.jstr "c"),
        ("owner", JValue.jstr "w"), ("imageUrl", JValue.jstr "u"),
        ("versions", JValue.jarr [JValue.jobj [("version", JValue.jstr "1"),
          ("targetAbi", JValue.jstr "a"), ("sourceUrl", JValue.jstr "s"),
          ("checksum", JValue.jstr "k"), ("timestamp", JValue.jstr "t")]])]
        "extra" =
      dictGet [("guid", JValue.jstr "g"), ("extra", JValue.jnum 7)] "extra" :=
  ⟨rfl, by decide,
   descriptor_update_preserves_other_keys
     ⟨"n", "g", "o", "d", "c", "w", "u", "1", "a", "s", "k", "t"⟩
     [("guid", JValue.jstr "g"), ("extra", JValue.jnum 7)] _ "extra" rfl
     (by decide)⟩

/-- C10: a matched entry without a `versions` field gets exactly the
one-record list, and the filter keeps every record that has no `version`
field (such a record never equals the submitted version string). -/
theorem missing_versions_and_versionless_records (i : Inputs) :
    (∀ d : Dict, dictGet d "versions" = none →
      ∃ u, updateEntry i d = some u ∧
        dictGet u "versions" = some (.jarr [.jobj (versionDict i)]))
    ∧ (∀ (ver : String) (xs ex : List JValue), filterKeep ver xs = some ex →
        ∀ d2 : Dict, JValue.jobj d2 ∈ xs → dictGet d2 "version" = none →
          JValue.jobj d2 ∈ ex) := by
  constructor
  · intro d hd
    have h4 : iterFilter i.version
        ((dictGet d "versions").getD (.jarr [])) = some [] := by
      rw [hd]; rfl
    refine ⟨dictSet (dictUpdate d (pluginDict i)) "versions"
        (.jarr [.jobj (versionDict i)]), ?_, dictGet_dictSet_self _ _ _⟩
    exact updateEntry_of_filter i d [] h4
  · intro ver xs ex h d2 hmem hnone
    exact filterKeep_retains ver xs ex h d2 hmem hnone

/-- Witness for C10: an entry with no `versions` field, and a filter run
over a record lacking the `version` field. -/
theorem missing_versions_and_versionless_records_witness :
    dictGet [("guid", JValue.jstr "g")] "versions" = none
    ∧ (∃ u, updateEntry ⟨"n", "g", "o", "d", "c", "w", "u", "1", "a", "s", "k", "t"⟩
          [("guid", JValue.jstr "g")] = some u ∧
        dictGet u "versions" = some (.jarr [.jobj (versionDict
          ⟨"n", "g", "o", "d", "c", "w", "u", "1", "a", "s", "k", "t"⟩)]))
    ∧ filterKeep "1" [JValue.jobj [("note", JValue.jstr "x")]] =
        some [JValue.jobj [("note", JValue.jstr "x")]]
    ∧ dictGet [("note", JValue.jstr "x")] "version" = none
    ∧ JValue.jobj [("note", JValue.jstr "x")] ∈
        [JValue.jobj [("note", JValue.jstr "x")]] := by
  refine ⟨rfl, ?_, rfl, rfl, ?_⟩
  · exact (missing_versions_and_versionless_records
      ⟨"n", "g", "o", "d", "c", "w", "u", "1", "a", "s", "k", "t"⟩).1
      [("guid", JValue.jstr "g")] rfl
  · exact (missing_versions_and_versionless_records
      ⟨"n", "g", "o", "d", "c", "w", "u", "1", "a", "s", "k", "t"⟩).2
      "1" [JValue.jobj [("note", JValue.jstr "x")]]
      [JValue.jobj [("note", JValue.jstr "x")]] rfl
      [("note", JValue.jstr "x")] (List.mem_singleton.mpr rfl) rfl

/-- C4, counterexample to the claim as stated: the claim says a load on
which JSON parsing fails for any reason returns the empty sequence with no
error raised, but for a file whose bytes are not valid UTF-8 the
`UnicodeDecodeError` raised inside `json.load` is not a
`json.JSONDecodeError`, escapes the `except` clause, and aborts the load
with no result. -/
theorem load_manifest_corrupt_counterexample :
    ¬ load_manifest FileRead.notUtf8 = some [] := by
  simp [load_manifest]

/-- C4, amended: the load returns the empty sequence when the path does not
exist, when the file has zero length, and when the decoded text fails to
parse as JSON (only `json.JSONDecodeError` is caught); a file whose bytes
are not valid UTF-8 raises an uncaught error instead (no result); when
parsing succeeds, a non-sequence value is wrapped in a one-element sequence
and a sequence is returned as-is. -/
theorem load_manifest_amended :
    load_manifest FileRead.noFile = some []
    ∧ load_manifest FileRead.emptyFile = some []
    ∧ load_manifest FileRead.badJson = some []
    ∧ load_manifest FileRead.notUtf8 = none
    ∧ (∀ xs, load_manifest (FileRead.parsed (.jarr xs)) = some xs)
    ∧ (∀ v, isArr v = false → load_manifest (FileRead.parsed v) = some [v]) := by
  refine ⟨rfl, rfl, rfl, rfl, fun xs => rfl, fun v hv => ?_⟩
  cases v with
  | jarr xs => simp [isArr] at hv
  | jnull => rfl
  | jbool b => rfl
  | jnum n => rfl
  | jstr s => rfl
  | jobj kvs => rfl

/-- Witness for the amended C4 at a single-object (non-sequence) parse. -/
theorem load_manifest_amended_witness :
    isArr (JValue.jobj [("guid", JValue.jstr "g")]) = false
    ∧ load_manifest (FileRead.parsed (JValue.jobj [("guid", JValue.jstr "g")])) =
        some [JValue.jobj [("guid", JValue.jstr "g")]] :=
  ⟨rfl, load_manifest_amended.2.2.2.2.2 (JValue.jobj [("guid", JValue.jstr "g")]) rfl⟩

/-- C6: the merge is idempotent — a successful merge result merges to
itself under the same inputs — and the updated entry's versions list holds
exactly one record whose `version` value is the submitted version. -/
theorem merge_idempotent (i : Inputs) (m m' : List JValue)
    (h : mergeScan i m = some m') :
    mergeScan i m' = some m'
    ∧ ∀ d u : Dict, updateEntry i d = some u →
        (versionsList u).countP (fun v => verKey v == some i.version) = 1 :=
  ⟨mergeScan_idem i m m' h, fun d u hu => updateEntry_count_one i d u hu⟩

/-- Witness for C6 starting from the empty manifest. -/
theorem merge_idempotent_witness :
    mergeScan ⟨"n", "g", "o", "d", "c", "w", "u", "1", "a", "s", "k", "t"⟩ [] =
      some [JValue.jobj (newEntry
        ⟨"n", "g", "o", "d", "c", "w", "u", "1", "a", "s", "k", "t"⟩)]
    ∧ (mergeScan ⟨"n", "g", "o", "d", "c", "w", "u", "1", "a", "s", "k", "t"⟩
          [JValue.jobj (newEntry
            ⟨"n", "g", "o", "d", "c", "w", "u", "1", "a", "s", "k", "t"⟩)] =
        some [JValue.jobj (newEntry
          ⟨"n", "g", "o", "d", "c", "w", "u", "1", "a", "s", "k", "t"⟩)]
       ∧ ∀ d u : Dict,
          updateEntry ⟨"n", "g", "o", "d", "c", "w", "u", "1", "a", "s", "k", "t"⟩
            d = some u →
          (versionsList u).countP (fun v => verKey v == some "1") = 1) :=
  ⟨rfl, merge_idempotent ⟨"n", "g", "o", "d", "c", "w", "u", "1", "a", "s", "k", "t"⟩
    [] [JValue.jobj (newEntry
      ⟨"n", "g", "o", "d", "c", "w", "u", "1", "a", "s", "k", "t"⟩)] rfl⟩

/-- C8: the merge preserves the invariant that no two records of one
entry's versions list share the same `version` value: if every entry of the
input manifest satisfies it, every entry of a successful merge result does. -/
theorem merge_preserves_distinct_versions (i : Inputs) (m m' : List JValue)
    (hinv : ∀ e ∈ m, entryInvB e = true)
    (h : mergeScan i m = some m') :
    ∀ e ∈ m', entryInvB e = true :=
  mergeScan_inv i m m' hinv h

/-- Witness for C8 at a manifest whose matched entry holds versions
`[v2, v1]` and receives a resubmission of `v1`. -/
theorem merge_preserves_distinct_versions_witness :
    (∀ e ∈ [JValue.jobj [("guid", JValue.jstr "g"),
        ("versions", JValue.jarr [JValue.jobj [("version", JValue.jstr "2")],
          JValue.jobj [("version", JValue.jstr "1")]])]], entryInvB e = true)
    ∧ mergeScan ⟨"n", "g", "o", "d", "c", "w", "u", "1", "a", "s", "k", "t"⟩
        [JValue.jobj [("guid", JValue.jstr "g"),
          ("versions", JValue.jarr [JValue.jobj [("version", JValue.jstr "2")],
            JValue.jobj [("version", JValue.jstr "1")]])]] =
        some [JValue.jobj [("guid", JValue.jstr "g"),
          ("versions", JValue.jarr [JValue.jobj [("version", JValue.jstr "1"),
             ("targetAbi", JValue.jstr "a"), ("sourceUrl", JValue.jstr "s"),
             ("checksum", JValue.jstr "k"), ("timestamp", JValue.jstr "t")],
            JValue.jobj [("version", JValue.jstr "2")]]),
          ("name", JValue.jstr "n"), ("overview", JValue.jstr "o"),
          ("description", JValue.jstr "d"), ("category", JValue.jstr "c"),
          ("owner", JValue.jstr "w"), ("imageUrl", JValue.jstr "u")]]
    ∧ (∀ e ∈ [JValue.jobj [("guid", JValue.jstr "g"),
          ("versions", JValue.jarr [JValue.jobj [("version", JValue.jstr "1"),
             ("targetAbi", JValue.jstr "a"), ("sourceUrl", JValue.jstr "s"),
             ("checksum", JValue.jstr "k"), ("timestamp", JValue.jstr "t")],
            JValue.jobj [("version", JValue.jstr "2")]]),
          ("name", JValue.jstr "n"), ("overview", JValue.jstr "o"),
          ("description", JValue.jstr "d"), ("category", JValue.jstr "c"),
          ("owner", JValue.jstr "w"), ("imageUrl", JValue.jstr "u")]],
        entryInvB e = true) := by
  refine ⟨by decide, rfl, ?_⟩
  exact merge_preserves_distinct_versions
    ⟨"n", "g", "o", "d", "c", "w", "u", "1", "a", "s", "k", "t"⟩
    [JValue.jobj [("guid", JValue.jstr "g"),
      ("versions", JValue.jarr [JValue.jobj [("version", JValue.jstr "2")],
        JValue.jobj [("version", JValue.jstr "1")]])]]
    _ (by decide) rfl

theorem applyOp_rename_of_get (fs2 : FS) (src dst : JPath) (c : String)
    (h : fsGet fs2.files src = some c) :
    applyOp fs2 (.rename src dst) = ⟨fsSet (fsDel fs2.files src) dst c, fs2.dirs⟩ := by
  simp [applyOp, h]

/-- C7: the write-back writes the serialized manifest followed by a newline
to a temporary file that lives in the target's own directory (created
beforehand), then renames it over the target; consequently the final target
content is the new serialization, and at every intermediate filesystem
state of the sequence the target holds either its old content or the new
complete content — never anything else. -/
theorem persist_writes_atomically (path : JPath) (m : List JValue) (fs : FS) :
    (tmpPathOf path).parent = path.parent
    ∧ tmpPathOf path ≠ path
    ∧ fsGet (persist path m fs).files path = some (dumpManifest m)
    ∧ path.parent ∈ (persist path m fs).dirs
    ∧ ∀ s ∈ statesOf fs (persistOps path (dumpManifest m)),
        fsGet s.files path = fsGet fs.files path
        ∨ fsGet s.files path = some (dumpManifest m) := by
  have hne := tmpPathOf_ne path
  have hfinal : persist path m fs =
      ⟨fsSet (fsDel (fsSet fs.files (tmpPathOf path) (dumpManifest m))
          (tmpPathOf path)) path (dumpManifest m),
       if (tmpPathOf path).parent ∈ fs.dirs then fs.dirs
       else (tmpPathOf path).parent :: fs.dirs⟩ := by
    show applyOp _ (FSOp.rename (tmpPathOf path) path) = _
    exact applyOp_rename_of_get _ _ _ _ (fsGet_fsSet_self _ _ _)
  have h3 : fsGet (persist path m fs).files path = some (dumpManifest m) := by
    rw [hfinal]
    exact fsGet_fsSet_self _ _ _
  refine ⟨rfl, hne, h3, ?_, ?_⟩
  · rw [hfinal]
    by_cases hd : (tmpPathOf path).parent ∈ fs.dirs
    · rw [if_pos hd]; exact hd
    · rw [if_neg hd]; exact List.mem_cons_self _ _
  · intro s hs
    simp only [persistOps, statesOf, List.mem_cons, List.mem_singleton,
      List.not_mem_nil, or_false] at hs
    rcases hs with rfl | rfl | rfl | rfl
    · exact Or.inl rfl
    · exact Or.inl rfl
    · exact Or.inl (fsGet_fsSet_ne _ _ _ _ (Ne.symm hne))
    · exact Or.inr h3

theorem collectInputs_error (e : EnvMap) (n : String)
    (h : firstMissing e = some n) : collectInputs e = Except.error n := by
  simp only [firstMissing, requiredVars] at h
  cases h1 : e "MANIFEST_PATH" with
  | none =>
      rw [List.find?_cons_of_pos _ (by simp [h1])] at h
      obtain rfl := Option.some.inj h
      simp [collectInputs, env, h1, bind, Except.bind]
  | some v1 =>
      rw [List.find?_cons_of_neg _ (by simp [h1])] at h
      cases h2 : e "NAME" with
      | none =>
          rw [List.find?_cons_of_pos _ (by simp [h2])] at h
          obtain rfl := Option.some.inj h
          simp [collectInputs, env, h1, h2, bind, Except.bind]
      | some v2 =>
          rw [List.find?_cons_of_neg _ (by simp [h2])] at h
          cases h3 : e "GUID" with
          | none =>
              rw [List.find?_cons_of_pos _ (by simp [h3])] at h
              obtain rfl := Option.some.inj h
              simp [collectInputs, env, h1, h2, h3, bind, Except.bind]
          | some v3 =>
              rw [List.find?_cons_of_neg _ (by simp [h3])] at h
              cases h4 : e "OVERVIEW" with
              | none =>
                  rw [List.find?_cons_of_pos _ (by simp [h4])] at h
                  obtain rfl := Option.some.inj h
                  simp [collectInputs, env, h1, h2, h3, h4, bind, Except.bind]
              | some v4 =>
                  rw [List.find?_cons_of_neg _ (by simp [h4])] at h
                  cases h5 : e "DESCRIPTION" with
                  | none =>
                      rw [List.find?_cons_of_pos _ (by simp [h5])] at h
                      obtain rfl := Option.some.inj h
                      simp [collectInputs, env, h1, h2, h3, h4, h5, bind, Except.bind]
                  | some v5 =>
                      rw [List.find?_cons_of_neg _ (by simp [h5])] at h
                      cases h6 : e "CATEGORY" with
                      | none =>
                          rw [List.find?_cons_of_pos _ (by simp [h6])] at h
                          obtain rfl := Option.some.inj h
                          simp [collectInputs, env, h1, h2, h3, h4, h5, h6, bind, Except.bind]
                      | some v6 =>
                          rw [List.find?_cons_of_neg _ (by simp [h6])] at h
                          cases h7 : e "OWNER" with
                          | none =>
                              rw [List.find?_cons_of_pos _ (by simp [h7])] at h
                              obtain rfl := Option.some.inj h
                              simp [collectInputs, env, h1, h2, h3, h4, h5, h6, h7, bind, Except.bind]
                          | some v7 =>
                              rw [List.find?_cons_of_neg _ (by simp [h7])] at h
                              cases h8 : e "IMAGE_URL" with
                              | none =>
                                  rw [List.find?_cons_of_pos _ (by simp [h8])] at h
                                  obtain rfl := Option.some.inj h
                                  simp [collectInputs, env, h1, h2, h3, h4, h5, h6, h7, h8, bind, Except.bind]
                              | some v8 =>
                                  rw [List.find?_cons_of_neg _ (by simp [h8])] at h
                                  cases h9 : e "VERSION" with
                                  | none =>
                                      rw [List.find?_cons_of_pos _ (by simp [h9])] at h
                                      obtain rfl := Option.some.inj h
                                      simp [collectInputs, env, h1, h2, h3, h4, h5, h6, h7, h8, h9, bind, Except.bind]
                                  | some v9 =>
                                      rw [List.find?_cons_of_neg _ (by simp [h9])] at h
                                      cases h10 : e "TARGET_ABI" with
                                      | none =>
                                          rw [List.find?_cons_of_pos _ (by simp [h10])] at h
                                          obtain rfl := Option.some.inj h
                                          simp [collectInputs, env, h1, h2, h3, h4, h5, h6, h7, h8, h9, h10, bind, Except.bind]
                                      | some v10 =>
                                          rw [List.find?_cons_of_neg _ (by simp [h10])] at h
                                          cases h11 : e "DOWNLOAD_URL" with
                                          | none =>
                                              rw [List.find?_cons_of_pos _ (by simp [h11])] at h
                                              obtain rfl := Option.some.inj h
                                              simp [collectInputs, env, h1, h2, h3, h4, h5, h6, h7, h8, h9, h10, h11, bind, Except.bind]
                                          | some v11 =>
                                              rw [List.find?_cons_of_neg _ (by simp [h11])] at h
                                              cases h12 : e "CHECKSUM" with
                                              | none =>
                                                  rw [List.find?_cons_of_pos _ (by simp [h12])] at h
                                                  obtain rfl := Option.some.inj h
                                                  simp [collectInputs, env, h1, h2, h3, h4, h5, h6, h7, h8, h9, h10, h11, h12, bind, Except.bind]
                                              | some v12 =>
                                                  rw [List.find?_cons_of_neg _ (by simp [h12])] at h
                                                  cases h13 : e "TIMESTAMP" with
                                                  | none =>
                                                      rw [List.find?_cons_of_pos _ (by simp [h13])] at h
                                                      obtain rfl := Option.some.inj h
                                                      simp [collectInputs, env, h1, h2, h3, h4, h5, h6, h7, h8, h9, h10, h11, h12, h13, bind, Except.bind]
                                                  | some v13 =>
                                                      rw [List.find?_cons_of_neg _ (by simp [h13])] at h
                                                      simp at h

/-- C5: whenever at least one required environment variable is unset, the
run fails at the first missing variable in the source's read order, the
filesystem is returned untouched (the manifest is neither written nor
modified), the exit status is 6, and the stderr message names the
variable. -/
theorem missing_env_aborts_without_write (e : EnvMap) (r : FileRead) (fs : FS)
    (n : String) (h : firstMissing e = some n) :
    mainRun e r fs = (fs, .error (.missingEnv n))
    ∧ MainErr.exitCode (.missingEnv n) = 6
    ∧ MainErr.message (.missingEnv n) =
        some ("Environment variable " ++ n ++ " is required") := by
  refine ⟨?_, rfl, rfl⟩
  simp [mainRun, collectInputs_error e n h]

/-- Witness for C5: every variable set except CHECKSUM. -/
theorem missing_env_aborts_without_write_witness :
    firstMissing (fun v => if v = "CHECKSUM" then none else some "x") =
      some "CHECKSUM"
    ∧ (mainRun (fun v => if v = "CHECKSUM" then none else some "x")
          FileRead.noFile ⟨[], []⟩ =
        (⟨[], []⟩, .error (.missingEnv "CHECKSUM"))
       ∧ MainErr.exitCode (.missingEnv "CHECKSUM") = 6
       ∧ MainErr.message (.missingEnv "CHECKSUM") =
          some ("Environment variable " ++ "CHECKSUM" ++ " is required")) :=
  ⟨by decide,
   missing_env_aborts_without_write _ FileRead.noFile ⟨[], []⟩ "CHECKSUM"
     (by decide)⟩

end JellyTV
